import Mathlib

/-!
Verification development for the CWAC MCP scan lifecycle tracker.

This file gives a shallow embedding of the Python modules
`cwac_mcp/scan_registry.py`, `cwac_mcp/result_reader.py` and the
query operation `cwac_get_results` of `cwac_mcp/server.py`, and proves
the testable properties stated for them.

Modelling conventions:
* Python dicts (insertion ordered) are association lists `List (String × β)`;
  `dictGet`/`dictSet` mirror `d.get(k)` / `d[k] = v` (update in place keeps
  the key position, a fresh key is appended at the end).
* `datetime.now()` values are abstract `Nat` timestamps; `st_ctime` values
  are abstract `Int` timestamps (only their order matters).
* The filesystem observed by a call is passed in explicitly: a directory is
  `Option` of its entry list (`none` when the path is not a directory).
* A `subprocess.Popen` handle is an opaque `Option Nat`; the outcome of
  `poll()` and the text lines its stdout/stderr streams yield during a call
  are supplied by an explicit `Env` value.
* `sorted`/`list.sort` in Python are stable sorts; they are modelled with
  the Mathlib `List.insertionSort`, which is also stable for the relations
  used here (ties keep their original relative order).
-/

/-! ## Python string primitives -/

/-- Python `s.endswith(t)`: `t.data` is a suffix of `s.data`. -/
def pyEndsWith (s t : String) : Bool :=
  t.data.isSuffixOf s.data

/-- Python `s.rstrip(chr(10))`: drop every trailing newline character.
Used for the `text.rstrip` call in `_capture_output`. -/
def pyRstripNl (s : String) : String :=
  ⟨(s.data.reverse.dropWhile (fun c => c = '\n')).reverse⟩

/-- Drop the last `n` characters of a string (Python `s[:-n]` for `n ≤ len`). -/
def pyDropRight (s : String) (n : Nat) : String :=
  ⟨s.data.take (s.data.length - n)⟩

/-- Lexicographic comparison of char lists by code point; this is how Python
compares strings, and it is kernel-reducible (unlike `String.le`). -/
def charListLe : List Char → List Char → Bool
  | [], _ => true
  | _ :: _, [] => false
  | a :: as, b :: bs => if a = b then charListLe as bs else decide (a < b)

/-! ## Python dict primitives (insertion-ordered association lists) -/

/-- Python `d.get(k)` on an insertion-ordered dict. -/
def dictGet {β : Type} (m : List (String × β)) (k : String) : Option β :=
  match m with
  | [] => none
  | p :: ps => if p.1 = k then some p.2 else dictGet ps k

/-- Python `d[k] = v`: replace the value at the first occurrence of `k`
keeping its position, or append `(k, v)` when `k` is absent. -/
def dictSet {β : Type} (m : List (String × β)) (k : String) (v : β) :
    List (String × β) :=
  match m with
  | [] => [(k, v)]
  | p :: ps => if p.1 = k then (p.1, v) :: ps else p :: dictSet ps k v

/-- The key list of a dict, in insertion order. -/
def dictKeys {β : Type} (m : List (String × β)) : List String :=
  m.map Prod.fst

/-- The sum of all values of a `String → Nat` dict. -/
def sumCounts (m : List (String × Nat)) : Nat :=
  (m.map Prod.snd).sum

/-! ## result_reader.py: rows and the aggregator -/

/-- A CSV row as produced by `csv.DictReader`: an insertion-ordered mapping
from column name to cell text. -/
abbrev Row := List (String × String)

/-- Python `row.get(field, "unknown")` as used by `_count_by_field`. -/
def rowGet (row : Row) (f : String) : String :=
  (dictGet row f).getD "unknown"

/-- One iteration of the loop of `_count_by_field`:
`counts[value] = counts.get(value, 0) + 1`. -/
def _count_step (counts : List (String × Nat)) (v : String) :
    List (String × Nat) :=
  dictSet counts v ((dictGet counts v).getD 0 + 1)

/-- Embedding of `result_reader._count_by_field(rows, field)`. -/
def _count_by_field (rows : List Row) (f : String) : List (String × Nat) :=
  rows.foldl (fun counts row => _count_step counts (rowGet row f)) []

/-- One element of the list returned by `_top_n_by_field`:
the Python dict `{"id": value, "count": count}`. -/
structure TopEntry where
  id : String
  count : Nat
deriving DecidableEq, Repr

/-- The order used by `sorted(counts.items(), key=lambda item: item[1],
reverse=True)`: descending by count.  A stable sort under this relation
keeps items with equal counts in their original (first-encountered) order,
exactly as Python's stable `sorted` with `reverse=True` does. -/
abbrev countDesc (a b : String × Nat) : Prop := b.2 ≤ a.2

instance countDescTotal : IsTotal (String × Nat) countDesc :=
  ⟨fun a b => le_total b.2 a.2⟩

instance countDescTrans : IsTrans (String × Nat) countDesc :=
  ⟨fun _ _ _ hab hbc => le_trans hbc hab⟩

/-- Embedding of `result_reader._top_n_by_field(rows, field, n)`. -/
def _top_n_by_field (rows : List Row) (f : String) (n : Nat) : List TopEntry :=
  let counts := _count_by_field rows f
  let sorted_counts := List.insertionSort countDesc counts
  (sorted_counts.take n).map (fun vc => TopEntry.mk vc.1 vc.2)

/-! ## result_reader.py: directories, read_results and get_summary -/

/-- The contents of a results directory: filenames paired with the row list
`_read_csv_file` yields for them (`[]` for empty, unreadable or non-file
entries, matching the silent recovery in the source).  A whole directory is
`Option Dir`, `none` when `os.path.isdir` is false. -/
abbrev Dir := List (String × List Row)

/-- The filename order produced by `sorted(...)` in `_resolve_csv_files`:
the source sorts the joined paths, which share the directory prefix, so the
order is the lexicographic order of the filenames. -/
abbrev fileNameLe (a b : String × List Row) : Prop :=
  charListLe a.1.data b.1.data = true

/-- Embedding of `result_reader._resolve_csv_files(results_dir, audit_type)`, returning
the selected entries (filename and rows) instead of paths.  An `audit_type`
that is `None` or empty is falsy in Python and selects every `.csv` entry,
sorted by name; otherwise only `{audit_type}.csv` is read, if present. -/
def _resolve_csv_files (files : Dir) (audit_type : Option String) : Dir :=
  match audit_type with
  | some t =>
    if t ≠ "" then
      match dictGet files (t ++ ".csv") with
      | some rows => [(t ++ ".csv", rows)]
      | none => []
    else
      List.insertionSort fileNameLe
        (files.filter (fun f => pyEndsWith f.1 ".csv"))
  | none =>
    List.insertionSort fileNameLe
      (files.filter (fun f => pyEndsWith f.1 ".csv"))

/-- The impact filter of `read_results`: applied only when `impact` is
truthy (non-`None`, non-empty) and the file has rows whose first row
contains an `"impact"` column; then keeps rows with
`row.get("impact", "").lower() == impact.lower()`. -/
def filterImpact (impact : Option String) (file_rows : List Row) : List Row :=
  match impact with
  | none => file_rows
  | some imp =>
    if imp ≠ "" ∧ file_rows ≠ [] then
      match file_rows.head? with
      | some first =>
        if (dictGet first "impact").isSome then
          file_rows.filter
            (fun r => ((dictGet r "impact").getD "").toLower == imp.toLower)
        else file_rows
      | none => file_rows
    else file_rows

/-- Python `rows[:limit]` for an `int` limit (negative limits drop from the
end, as Python slicing does). -/
def pySliceTo {α : Type} (xs : List α) (l : Int) : List α :=
  if 0 ≤ l then xs.take l.toNat else xs.take ((xs.length : Int) + l).toNat

/-- The accumulation loop of `read_results`: extend, then break as soon as
`len(rows) >= limit`. -/
def accumulateRows (impact : Option String) (limit : Option Int)
    (acc : List Row) : Dir → List Row
  | [] => acc
  | f :: fs =>
    let acc := acc ++ filterImpact impact f.2
    match limit with
    | some l =>
      if (acc.length : Int) ≥ l then acc
      else accumulateRows impact limit acc fs
    | none => accumulateRows impact limit acc fs

/-- Embedding of `result_reader.read_results(results_dir, audit_type, impact, limit)`. -/
def read_results (dir? : Option Dir) (audit_type impact : Option String)
    (limit : Option Int) : List Row :=
  match dir? with
  | none => []
  | some files =>
    let csv_files := _resolve_csv_files files audit_type
    let rows := accumulateRows impact limit [] csv_files
    match limit with
    | some l => pySliceTo rows l
    | none => rows

/-- The dict returned by `get_summary`.  The two unconditional keys are
plain fields; the two axe-specific keys are `Option`s, `none` when the
source dict does not contain them. -/
structure Summary where
  total_issues : Nat
  by_audit_type : List (String × Nat)
  axe_impact_breakdown : Option (List (String × Nat))
  top_violations : Option (List TopEntry)
deriving DecidableEq, Repr

/-- Embedding of `os.path.splitext(os.path.basename(p))[0]` specialized to filenames
that end in `".csv"` (the only names `get_summary` feeds it): the last dot
is then the one starting `".csv"`, and `splitext` splits there unless every
character before it is a dot (CPython treats an all-dots head as part of
the root: `splitext(".csv") == (".csv", "")`). -/
def auditKey (f : String) : String :=
  let stem := pyDropRight f 4
  if stem.data.any (fun c => c ≠ '.') then stem else f

/-- The body of the `for csv_path in csv_files` loop of `get_summary`. -/
def summaryStep (s : Summary) (file : String × List Row) : Summary :=
  let audit_key := auditKey file.1
  let count := file.2.length
  let s := { s with
    by_audit_type := dictSet s.by_audit_type audit_key count,
    total_issues := s.total_issues + count }
  if audit_key = "axe_core_audit" ∧ file.2 ≠ [] then
    { s with
      axe_impact_breakdown := some (_count_by_field file.2 "impact"),
      top_violations := some (_top_n_by_field file.2 "id" 10) }
  else s

/-- The initial summary dict `{"total_issues": 0, "by_audit_type": {}}`. -/
def summaryZero : Summary :=
  { total_issues := 0, by_audit_type := [],
    axe_impact_breakdown := none, top_violations := none }

/-- Embedding of `result_reader.get_summary(results_dir)`. -/
def get_summary (dir? : Option Dir) : Summary :=
  match dir? with
  | none => summaryZero
  | some files =>
    (_resolve_csv_files files none).foldl summaryStep summaryZero

/-! ## scan_registry.py: records, registry and status updates -/

/-- Embedding of `scan_registry.ScanRecord`.  `process` is an opaque handle (`none`
models a record registered without a live process). -/
structure ScanRecord where
  process : Option Nat
  config_path : String
  base_urls_dir : String
  results_dir : Option String
  status : String
  start_time : Nat
  end_time : Option Nat
  audit_name : String
  stdout_lines : List String := []
  stderr_lines : List String := []
deriving DecidableEq, Repr

/-- The `_scans` dict of the registry. -/
abbrev Registry := List (String × ScanRecord)

/-- One entry yielded by `os.scandir` on a results root. -/
structure FSEntry where
  name : String
  isDir : Bool
  ctime : Int
deriving DecidableEq, Repr

/-- One candidate results root: its path and, when it is a directory, the
entries `os.scandir` yields for it (partial on an `OSError`, which the
source swallows keeping the candidates gathered so far). -/
structure RootDir where
  path : String
  entries : Option (List FSEntry)
deriving DecidableEq, Repr

/-- The world observed by one `update_status` call: the `poll()` outcome of
the poll outcome of the process of the record (`none` while it is still running), the text lines its
stdout/stderr yield to `_capture_output`, `datetime.now()`, and the state
of the two candidate results roots used by `_discover_results_dir` (in the
fixed order: CWAC results root first, project output root second). -/
structure Env where
  poll : Option Int
  stdoutAvail : List String
  stderrAvail : List String
  now : Nat
  roots : List RootDir
deriving DecidableEq, Repr

/-- The order used by `candidates.sort(key=lambda c: c[0], reverse=True)`:
descending by creation time; the stable sort keeps ties in scan order. -/
abbrev ctimeDesc (a b : Int × String) : Prop := b.1 ≤ a.1

instance ctimeDescTotal : IsTotal (Int × String) ctimeDesc :=
  ⟨fun a b => le_total b.1 a.1⟩

instance ctimeDescTrans : IsTrans (Int × String) ctimeDesc :=
  ⟨fun _ _ _ hab hbc => le_trans hbc hab⟩

namespace ScanRegistry

/-- The candidate list built by the two root loops of
`_discover_results_dir`: for each root that is a directory, every scanned
entry that is a directory and whose name ends with `"_" + audit_name`,
as a `(st_ctime, path)` pair, roots in their fixed order. -/
def _discover_candidates (audit_name : String) (roots : List RootDir) :
    List (Int × String) :=
  (roots.map (fun root =>
    match root.entries with
    | none => []
    | some es =>
      (es.filter (fun e => e.isDir && pyEndsWith e.name ("_" ++ audit_name))).map
        (fun e => (e.ctime, root.path ++ "/" ++ e.name)))).flatten

/-- Embedding of `ScanRegistry._discover_results_dir(audit_name)`: `None` when there is
no candidate, otherwise the path of the first candidate after the stable
descending sort by creation time. -/
def _discover_results_dir (audit_name : String) (roots : List RootDir) :
    Option String :=
  let candidates := _discover_candidates audit_name roots
  if candidates = [] then none
  else
    match List.insertionSort ctimeDesc candidates with
    | [] => none
    | c :: _ => some c.2

/-- Embedding of `ScanRegistry._capture_output(record)`: append the lines the two
streams yield (decoded text, trailing newlines stripped).  A `None` process
or closed streams contribute nothing (the `Env` lists are then empty). -/
def _capture_output (record : ScanRecord) (env : Env) : ScanRecord :=
  match record.process with
  | none => record
  | some _ =>
    { record with
      stdout_lines := record.stdout_lines ++ env.stdoutAvail.map pyRstripNl,
      stderr_lines := record.stderr_lines ++ env.stderrAvail.map pyRstripNl }

/-- Embedding of `ScanRegistry.create(process, config_path, base_urls_dir, audit_name)`;
the freshly generated UUID is passed in as `scan_id`. -/
def create (reg : Registry) (scan_id : String) (process : Nat)
    (config_path base_urls_dir audit_name : String) (now : Nat) : Registry :=
  dictSet reg scan_id
    { process := some process
      config_path := config_path
      base_urls_dir := base_urls_dir
      results_dir := none
      status := "running"
      start_time := now
      end_time := none
      audit_name := audit_name }

/-- Embedding of `ScanRegistry.get(scan_id)`. -/
def get (reg : Registry) (scan_id : String) : Option ScanRecord :=
  dictGet reg scan_id

/-- Embedding of `ScanRegistry.register(scan_id, record)`. -/
def register (reg : Registry) (scan_id : String) (record : ScanRecord) :
    Registry :=
  dictSet reg scan_id record

/-- Embedding of `ScanRegistry.list_all()`: a shallow copy of the dict. -/
def list_all (reg : Registry) : Registry := reg

/-- Embedding of `ScanRegistry.cleanup(scan_id)`: deletes on-disk artifacts only; the
registry itself is unchanged. -/
def cleanup (reg : Registry) (_scan_id : String) : Registry := reg

/-- Embedding of `ScanRegistry.update_status(scan_id)`. -/
def update_status (reg : Registry) (scan_id : String) (env : Env) : Registry :=
  match dictGet reg scan_id with
  | none => reg
  | some record =>
    if record.status = "complete" ∨ record.status = "failed" then reg
    else
      match record.process with
      | none => reg
      | some _ =>
        match env.poll with
        | none => dictSet reg scan_id (_capture_output record env)
        | some return_code =>
          let record := _capture_output record env
          let record := { record with
            end_time := some env.now
            status := if return_code = 0 then "complete" else "failed"
            results_dir := _discover_results_dir record.audit_name env.roots }
          dictSet reg scan_id record

end ScanRegistry

/-! ## server.py: the cwac_get_results query -/

/-- The structured outcomes of `cwac_get_results`: the not-found error
dict, the not-ready error dict carrying the current status, the error dict
for a missing (or falsy) results directory, and the success dict whose
`count` is the length of `results`. -/
inductive GetResultsOut where
  | errNotFound (scan_id : String)
  | errNotReady (status : String)
  | errNoResultsDir
  | ok (scan_id : String) (results_dir : String) (results : List Row)
deriving DecidableEq, Repr

/-- Embedding of `server.cwac_get_results(scan_id, audit_type, impact, limit)` over the
module-level registry; `fsDirs` maps a results path to the directory
contents `read_results` would observe there.  Returns the structured
outcome and the registry as left by the embedded `update_status` call. -/
def cwac_get_results (reg : Registry) (scan_id : String)
    (audit_type impact : Option String) (limit : Option Int) (env : Env)
    (fsDirs : String → Option Dir) : GetResultsOut × Registry :=
  match dictGet reg scan_id with
  | none => (.errNotFound scan_id, reg)
  | some _ =>
    let reg := ScanRegistry.update_status reg scan_id env
    match dictGet reg scan_id with
    | none => (.errNotFound scan_id, reg)
    | some record =>
      if record.status = "running" then (.errNotReady "running", reg)
      else if record.status = "failed" then (.errNotReady "failed", reg)
      else
        match record.results_dir with
        | none => (.errNoResultsDir, reg)
        | some rd =>
          if rd = "" then (.errNoResultsDir, reg)
          else (.ok scan_id rd (read_results (fsDirs rd) audit_type impact limit), reg)

/-! ## Registry operation sequences (for the monotonicity claim) -/

/-- One registry operation, as listed in the state-monotonicity property.
`getOp` and `listAllOp` are pure reads; `cleanupOp` only touches the
filesystem; the IDs that `create`/`register` use are explicit arguments
(the source generates the ID of `create` with `uuid.uuid4()`). -/
inductive RegOp where
  | createOp (scan_id : String) (process : Nat)
      (config_path base_urls_dir audit_name : String) (now : Nat)
  | registerOp (scan_id : String) (record : ScanRecord)
  | getOp (scan_id : String)
  | updateStatusOp (scan_id : String) (env : Env)
  | listAllOp
  | cleanupOp (scan_id : String)

/-- The effect of one operation on the registry dict. -/
def applyOp (reg : Registry) : RegOp → Registry
  | .createOp id pr cp bu an now => ScanRegistry.create reg id pr cp bu an now
  | .registerOp id rec => ScanRegistry.register reg id rec
  | .getOp _ => reg
  | .updateStatusOp id env => ScanRegistry.update_status reg id env
  | .listAllOp => reg
  | .cleanupOp _ => reg

/-- A status is terminal when it is `"complete"` or `"failed"`. -/
def terminalStatus (s : String) : Prop := s = "complete" ∨ s = "failed"

/-- Freshness side condition: `create` and `register` are only applied with
an ID not already present, matching the spec invariant that job IDs are
never reused (fresh UUIDs). -/
def freshIdOk (reg : Registry) : RegOp → Prop
  | .createOp id _ _ _ _ _ => dictGet reg id = none
  | .registerOp id _ => dictGet reg id = none
  | _ => True

/-- Registries reachable from `r` by operation sequences whose
`create`/`register` steps use fresh IDs. -/
inductive ReachesFresh : Registry → Registry → Prop
  | refl (r : Registry) : ReachesFresh r r
  | step {r r' : Registry} (op : RegOp) :
      ReachesFresh r r' → freshIdOk r' op → ReachesFresh r (applyOp r' op)

/-! ## Dict lemmas -/

theorem dictKeys_nil {β : Type} : dictKeys ([] : List (String × β)) = [] := rfl

theorem dictKeys_cons {β : Type} (p : String × β) (ps : List (String × β)) :
    dictKeys (p :: ps) = p.1 :: dictKeys ps := rfl

theorem sumCounts_nil : sumCounts [] = 0 := rfl

theorem sumCounts_cons (p : String × Nat) (m : List (String × Nat)) :
    sumCounts (p :: m) = p.2 + sumCounts m := by
  simp [sumCounts]

theorem dictGet_dictSet_self {β : Type} (m : List (String × β)) (k : String) (v : β) :
    dictGet (dictSet m k v) k = some v := by
  induction m with
  | nil => simp [dictGet, dictSet]
  | cons p ps ih =>
    by_cases h : p.1 = k
    · simp [dictGet, dictSet, h]
    · simp [dictGet, dictSet, h, ih]

theorem dictGet_dictSet_ne {β : Type} (m : List (String × β)) {k k' : String}
    (v : β) (h : k' ≠ k) : dictGet (dictSet m k v) k' = dictGet m k' := by
  induction m with
  | nil =>
    have hkk' : ¬ k = k' := fun hh => h hh.symm
    simp [dictGet, dictSet, hkk']
  | cons p ps ih =>
    by_cases hp : p.1 = k
    · have hkk' : ¬ k = k' := fun hh => h hh.symm
      simp [dictGet, dictSet, hp, hkk']
    · simp [dictGet, dictSet, hp, ih]

theorem dictGet_eq_none_iff {β : Type} (m : List (String × β)) (k : String) :
    dictGet m k = none ↔ k ∉ dictKeys m := by
  induction m with
  | nil => simp [dictGet, dictKeys_nil]
  | cons p ps ih =>
    by_cases h : p.1 = k
    · simp [dictGet, dictKeys_cons, h]
    · have h' : ¬ k = p.1 := fun hh => h hh.symm
      simp [dictGet, dictKeys_cons, h, h', ih]

theorem dictGet_isSome_iff {β : Type} (m : List (String × β)) (k : String) :
    (dictGet m k).isSome ↔ k ∈ dictKeys m := by
  cases hd : dictGet m k with
  | none => simp [(dictGet_eq_none_iff m k).mp hd]
  | some v =>
    simp only [Option.isSome_some, true_iff]
    by_contra hn
    rw [← dictGet_eq_none_iff] at hn
    rw [hd] at hn
    exact Option.noConfusion hn

theorem dictKeys_dictSet_of_mem {β : Type} (m : List (String × β)) {k : String}
    (v : β) (h : k ∈ dictKeys m) : dictKeys (dictSet m k v) = dictKeys m := by
  induction m with
  | nil => simp [dictKeys_nil] at h
  | cons p ps ih =>
    by_cases hp : p.1 = k
    · simp [dictSet, hp, dictKeys_cons]
    · have hk : k ∈ dictKeys ps := by
        rcases List.mem_cons.mp (by rwa [dictKeys_cons] at h) with h1 | h1
        · exact absurd h1.symm hp
        · exact h1
      simp [dictSet, hp, dictKeys_cons, ih hk]

theorem dictKeys_dictSet_of_notMem {β : Type} (m : List (String × β)) {k : String}
    (v : β) (h : k ∉ dictKeys m) : dictKeys (dictSet m k v) = dictKeys m ++ [k] := by
  induction m with
  | nil => simp [dictKeys, dictSet]
  | cons p ps ih =>
    have hp : ¬ p.1 = k := by
      intro hh; exact h (by rw [dictKeys_cons, hh]; exact List.mem_cons_self _ _)
    have hps : k ∉ dictKeys ps := by
      intro hh; exact h (by rw [dictKeys_cons]; exact List.mem_cons_of_mem _ hh)
    simp [dictSet, hp, dictKeys_cons, ih hps]

theorem sumCounts_dictSet_of_notMem (m : List (String × Nat)) {k : String}
    (v : Nat) (h : k ∉ dictKeys m) : sumCounts (dictSet m k v) = sumCounts m + v := by
  induction m with
  | nil => simp [sumCounts, dictSet]
  | cons p ps ih =>
    have hp : ¬ p.1 = k := by
      intro hh; exact h (by rw [dictKeys_cons, hh]; exact List.mem_cons_self _ _)
    have hps : k ∉ dictKeys ps := by
      intro hh; exact h (by rw [dictKeys_cons]; exact List.mem_cons_of_mem _ hh)
    have hset : dictSet (p :: ps) k v = p :: dictSet ps k v := by
      simp [dictSet, hp]
    rw [hset, sumCounts_cons, sumCounts_cons, ih hps]
    omega

/-! ## Counting lemmas (for _count_by_field) -/

theorem count_step_cons_ne (p : String × Nat) (ps : List (String × Nat))
    {v : String} (h : ¬ p.1 = v) :
    _count_step (p :: ps) v = p :: _count_step ps v := by
  simp [_count_step, dictGet, dictSet, h]

theorem sumCounts_count_step (m : List (String × Nat)) (v : String) :
    sumCounts (_count_step m v) = sumCounts m + 1 := by
  induction m with
  | nil => simp [_count_step, dictGet, dictSet, sumCounts]
  | cons p ps ih =>
    by_cases h : p.1 = v
    · have hstep : _count_step (p :: ps) v = (p.1, p.2 + 1) :: ps := by
        simp [_count_step, dictGet, dictSet, h]
      rw [hstep, sumCounts_cons, sumCounts_cons]
      omega
    · rw [count_step_cons_ne p ps h, sumCounts_cons, sumCounts_cons, ih]
      omega

theorem dictGet_count_step (m : List (String × Nat)) (v w : String) :
    dictGet (_count_step m v) w =
      if w = v then some ((dictGet m v).getD 0 + 1) else dictGet m w := by
  induction m with
  | nil =>
    by_cases h : w = v
    · subst h; simp [_count_step, dictGet, dictSet]
    · have h' : ¬ v = w := fun hh => h hh.symm
      simp [_count_step, dictGet, dictSet, h, h']
  | cons p ps ih =>
    by_cases h : p.1 = v
    · have hstep : _count_step (p :: ps) v = (p.1, p.2 + 1) :: ps := by
        simp [_count_step, dictGet, dictSet, h]
      by_cases hw : w = v
      · have hpw : p.1 = w := h.trans hw.symm
        simp [dictGet, hstep, h, hw, hpw]
      · have hpw : ¬ p.1 = w := fun hh => hw (hh.symm.trans h)
        have hvw : ¬ v = w := fun hh => hw hh.symm
        simp [dictGet, hstep, h, hw, hpw, hvw]
    · by_cases hpw : p.1 = w
      · have hwv : ¬ w = v := fun hh => h (hpw.trans hh)
        simp [dictGet, count_step_cons_ne p ps h, hpw, hwv]
      · simp [dictGet, count_step_cons_ne p ps h, h, hpw, ih]

theorem dictKeys_count_step (m : List (String × Nat)) (v : String) :
    dictKeys (_count_step m v) =
      if v ∈ dictKeys m then dictKeys m else dictKeys m ++ [v] := by
  by_cases h : v ∈ dictKeys m
  · rw [if_pos h]; exact dictKeys_dictSet_of_mem m _ h
  · rw [if_neg h]; exact dictKeys_dictSet_of_notMem m _ h

theorem foldl_count_sum (vs : List String) :
    ∀ acc, sumCounts (vs.foldl _count_step acc) = sumCounts acc + vs.length := by
  induction vs with
  | nil => intro acc; simp
  | cons v vs ih =>
    intro acc
    rw [List.foldl_cons, ih, sumCounts_count_step]
    simp
    omega

theorem length_filter_map_eq {α β : Type} (g : α → β) (p : β → Bool) (l : List α) :
    ((l.map g).filter p).length = (l.filter (fun x => p (g x))).length := by
  induction l with
  | nil => rfl
  | cons x xs ih =>
    by_cases h : p (g x) <;> simp [List.filter_cons, h, ih]

theorem foldl_count_get (vs : List String) :
    ∀ acc w, (dictGet (vs.foldl _count_step acc) w).getD 0 =
      (dictGet acc w).getD 0 + (vs.filter (fun v => decide (v = w))).length := by
  induction vs with
  | nil => intro acc w; simp
  | cons v vs ih =>
    intro acc w
    rw [List.foldl_cons, ih, dictGet_count_step]
    by_cases h : w = v
    · have h' : v = w := h.symm
      rw [if_pos h]
      simp [List.filter_cons, h']
      omega
    · have h' : ¬ v = w := fun hh => h hh.symm
      rw [if_neg h]
      simp [List.filter_cons, h']

theorem count_by_field_eq_foldl (rows : List Row) (f : String) :
    _count_by_field rows f =
      (rows.map (fun r => rowGet r f)).foldl _count_step [] := by
  unfold _count_by_field
  rw [List.foldl_map]

/-- Claim C7: the counts of `_count_by_field` sum exactly to the number of
rows, every row is attributed to exactly one bucket (the count at each key
`v` is the number of rows whose field value, defaulting to `"unknown"` for
rows lacking the field, equals `v`), and a row lacking the field is read as
the sentinel `"unknown"`. -/
theorem C7_count_by_field_partition (rows : List Row) (f : String) :
    sumCounts (_count_by_field rows f) = rows.length ∧
    (∀ v : String, (dictGet (_count_by_field rows f) v).getD 0 =
      (rows.filter (fun r => decide (rowGet r f = v))).length) ∧
    (∀ row : Row, dictGet row f = none → rowGet row f = "unknown") := by
  refine ⟨?_, fun v => ?_, fun row h => ?_⟩
  · rw [count_by_field_eq_foldl, foldl_count_sum]
    simp [sumCounts]
  · rw [count_by_field_eq_foldl, foldl_count_get]
    simp only [dictGet, Option.getD_none, Nat.zero_add]
    exact length_filter_map_eq (fun r => rowGet r f) (fun x => decide (x = v)) rows
  · simp [rowGet, h]

/-! ## Key-set lemmas for _count_by_field -/

theorem mem_dictKeys_count_step (m : List (String × Nat)) (v w : String) :
    w ∈ dictKeys (_count_step m v) ↔ w ∈ dictKeys m ∨ w = v := by
  rw [dictKeys_count_step]
  by_cases h : v ∈ dictKeys m
  · rw [if_pos h]
    constructor
    · exact Or.inl
    · rintro (hw | hw)
      · exact hw
      · rwa [hw]
  · rw [if_neg h]
    simp [List.mem_append]

theorem foldl_count_mem_keys (vs : List String) :
    ∀ acc w, w ∈ dictKeys (vs.foldl _count_step acc) ↔ w ∈ dictKeys acc ∨ w ∈ vs := by
  induction vs with
  | nil => intro acc w; simp
  | cons v vs ih =>
    intro acc w
    rw [List.foldl_cons, ih, mem_dictKeys_count_step]
    constructor
    · rintro ((hw | hw) | hw)
      · exact Or.inl hw
      · exact Or.inr (by rw [hw]; exact List.mem_cons_self _ _)
      · exact Or.inr (List.mem_cons_of_mem _ hw)
    · rintro (hw | hw)
      · exact Or.inl (Or.inl hw)
      · rcases List.mem_cons.mp hw with hw | hw
        · exact Or.inl (Or.inr hw)
        · exact Or.inr hw

theorem foldl_count_keys_nodup (vs : List String) :
    ∀ acc, (dictKeys acc).Nodup → (dictKeys (vs.foldl _count_step acc)).Nodup := by
  induction vs with
  | nil => intro acc h; exact h
  | cons v vs ih =>
    intro acc h
    rw [List.foldl_cons]
    refine ih _ ?_
    rw [dictKeys_count_step]
    by_cases hm : v ∈ dictKeys acc
    · rwa [if_pos hm]
    · rw [if_neg hm]
      rw [List.nodup_append]
      exact ⟨h, List.nodup_singleton v, by
        intro a ha hv
        rw [List.mem_singleton.mp hv] at ha
        exact hm ha⟩

theorem foldl_count_keys_order (vs : List String) :
    ∀ acc, dictKeys (vs.foldl _count_step acc) =
      vs.foldl (fun ks v => if v ∈ ks then ks else ks ++ [v]) (dictKeys acc) := by
  induction vs with
  | nil => intro acc; rfl
  | cons v vs ih =>
    intro acc
    rw [List.foldl_cons, List.foldl_cons, ih, dictKeys_count_step]

theorem count_by_field_length_eq_dedup (rows : List Row) (f : String) :
    (_count_by_field rows f).length =
      ((rows.map (fun r => rowGet r f)).dedup).length := by
  have hlen : (_count_by_field rows f).length = (dictKeys (_count_by_field rows f)).length := by
    simp [dictKeys]
  have hnodup : (dictKeys (_count_by_field rows f)).Nodup := by
    rw [count_by_field_eq_foldl]
    exact foldl_count_keys_nodup _ [] (by simp [dictKeys_nil])
  have hmem : ∀ w, w ∈ dictKeys (_count_by_field rows f) ↔
      w ∈ (rows.map (fun r => rowGet r f)).dedup := by
    intro w
    rw [count_by_field_eq_foldl, foldl_count_mem_keys, List.mem_dedup]
    simp [dictKeys_nil]
  have hfin : (dictKeys (_count_by_field rows f)).toFinset =
      ((rows.map (fun r => rowGet r f)).dedup).toFinset := by
    ext w
    rw [List.mem_toFinset, List.mem_toFinset]
    exact hmem w
  rw [hlen, ← List.toFinset_card_of_nodup hnodup,
    ← List.toFinset_card_of_nodup (List.nodup_dedup _), hfin]

/-! ## Stability of the descending count sort -/

theorem filter_orderedInsert_count (a : String × Nat) (m : List (String × Nat)) (c : Nat) :
    (List.orderedInsert countDesc a m).filter (fun p => decide (p.2 = c)) =
      if a.2 = c then a :: m.filter (fun p => decide (p.2 = c))
      else m.filter (fun p => decide (p.2 = c)) := by
  rw [List.orderedInsert_eq_take_drop, List.filter_append]
  have hsplit : m.filter (fun p => decide (p.2 = c)) =
      (m.takeWhile (fun b => decide ¬ countDesc a b)).filter (fun p => decide (p.2 = c)) ++
      (m.dropWhile (fun b => decide ¬ countDesc a b)).filter (fun p => decide (p.2 = c)) := by
    rw [← List.filter_append, List.takeWhile_append_dropWhile]
  by_cases h : a.2 = c
  · rw [if_pos h]
    have htw : (m.takeWhile (fun b => decide ¬ countDesc a b)).filter
        (fun p => decide (p.2 = c)) = [] := by
      rw [List.filter_eq_nil_iff]
      intro b hb
      have hgt := List.mem_takeWhile_imp hb
      simp only [decide_eq_true_eq] at hgt
      have : a.2 < b.2 := lt_of_not_le hgt
      simp only [decide_eq_true_eq]
      omega
    rw [htw, List.nil_append, hsplit, htw, List.nil_append]
    simp [List.filter_cons, h]
  · rw [if_neg h]
    rw [hsplit]
    congr 1
    simp [List.filter_cons, h]

theorem filter_insertionSort_count (m : List (String × Nat)) (c : Nat) :
    (List.insertionSort countDesc m).filter (fun p => decide (p.2 = c)) =
      m.filter (fun p => decide (p.2 = c)) := by
  induction m with
  | nil => rfl
  | cons x xs ih =>
    rw [List.insertionSort, filter_orderedInsert_count]
    by_cases h : x.2 = c
    · rw [if_pos h, ih]
      simp [List.filter_cons, h]
    · rw [if_neg h, ih]
      simp [List.filter_cons, h]

/-- Claim C6: `_top_n_by_field rows f n` is exactly the first `n` entries
(so `min n (number of distinct values)` entries) of the full ranking
obtained by stable-sorting the `_count_by_field` dict by count descending:
its length is `min n` (distinct value count), the ranking is a permutation
of the counts dict sorted by count descending, ties keep the dict order
(the filter at each count value is unchanged), and the dict key order is
the first-encountered order of the field values. -/
theorem C6_top_n_prefix_of_ranking (rows : List Row) (f : String) (n : Nat) :
    _top_n_by_field rows f n =
      ((List.insertionSort countDesc (_count_by_field rows f)).take n).map
        (fun vc => TopEntry.mk vc.1 vc.2) ∧
    (_top_n_by_field rows f n).length = min n (_count_by_field rows f).length ∧
    (_count_by_field rows f).length =
      ((rows.map (fun r => rowGet r f)).dedup).length ∧
    List.Sorted countDesc (List.insertionSort countDesc (_count_by_field rows f)) ∧
    (List.insertionSort countDesc (_count_by_field rows f)).Perm (_count_by_field rows f) ∧
    (∀ c : Nat, (List.insertionSort countDesc (_count_by_field rows f)).filter
        (fun p => decide (p.2 = c)) =
      (_count_by_field rows f).filter (fun p => decide (p.2 = c))) ∧
    dictKeys (_count_by_field rows f) =
      (rows.map (fun r => rowGet r f)).foldl
        (fun ks v => if v ∈ ks then ks else ks ++ [v]) [] := by
  refine ⟨rfl, ?_, count_by_field_length_eq_dedup rows f,
    List.sorted_insertionSort countDesc _, List.perm_insertionSort countDesc _,
    fun c => filter_insertionSort_count _ c, ?_⟩
  · unfold _top_n_by_field
    rw [List.length_map, List.length_take,
      (List.perm_insertionSort countDesc (_count_by_field rows f)).length_eq]
  · rw [count_by_field_eq_foldl, foldl_count_keys_order]
    rfl

/-! ## Output directory resolver lemmas -/

theorem discover_candidates_eq_nil_iff (L : String) (roots : List RootDir) :
    ScanRegistry._discover_candidates L roots = [] ↔
      ∀ root ∈ roots, ∀ es, root.entries = some es →
        ∀ e ∈ es, e.isDir = true → pyEndsWith e.name ("_" ++ L) = false := by
  unfold ScanRegistry._discover_candidates
  rw [List.flatten_eq_nil_iff]
  constructor
  · intro h root hroot es hes e he hdir
    cases hval : pyEndsWith e.name ("_" ++ L) with
    | false => rfl
    | true =>
      exfalso
      have hl := h _ (List.mem_map.mpr ⟨root, hroot, rfl⟩)
      simp only [hes] at hl
      rw [List.map_eq_nil_iff, List.filter_eq_nil_iff] at hl
      exact hl e he (by simp [hdir, hval])
  · intro h l hl
    rcases List.mem_map.mp hl with ⟨root, hroot, rfl⟩
    cases hes : root.entries with
    | none => simp [hes]
    | some es =>
      simp only [hes]
      rw [List.map_eq_nil_iff, List.filter_eq_nil_iff]
      intro e he hq
      rw [Bool.and_eq_true] at hq
      rw [h root hroot es hes e he hq.1] at hq
      exact Bool.noConfusion hq.2

theorem mem_discover_candidates (L : String) (roots : List RootDir)
    (t : Int) (path : String) :
    (t, path) ∈ ScanRegistry._discover_candidates L roots ↔
      ∃ root ∈ roots, ∃ es, root.entries = some es ∧
        ∃ e ∈ es, e.isDir = true ∧ pyEndsWith e.name ("_" ++ L) = true ∧
          t = e.ctime ∧ path = root.path ++ "/" ++ e.name := by
  unfold ScanRegistry._discover_candidates
  rw [List.mem_flatten]
  constructor
  · rintro ⟨l, hl, hmem⟩
    rcases List.mem_map.mp hl with ⟨root, hroot, rfl⟩
    cases hes : root.entries with
    | none => simp only [hes] at hmem; exact absurd hmem (List.not_mem_nil _)
    | some es =>
      simp only [hes] at hmem
      rcases List.mem_map.mp hmem with ⟨e, hef, heq⟩
      rcases List.mem_filter.mp hef with ⟨hees, hq⟩
      rw [Bool.and_eq_true] at hq
      rcases hq with ⟨hdir, hends⟩
      injection heq with h1 h2
      exact ⟨root, hroot, es, hes, e, hees, hdir, hends, h1.symm, h2.symm⟩
  · rintro ⟨root, hroot, es, hes, e, hees, hdir, hends, rfl, rfl⟩
    refine ⟨_, List.mem_map.mpr ⟨root, hroot, rfl⟩, ?_⟩
    simp only [hes]
    exact List.mem_map.mpr ⟨e, List.mem_filter.mpr ⟨hees, by simp [hdir, hends]⟩, rfl⟩

theorem discover_none_iff_candidates_nil (L : String) (roots : List RootDir) :
    ScanRegistry._discover_results_dir L roots = none ↔
      ScanRegistry._discover_candidates L roots = [] := by
  unfold ScanRegistry._discover_results_dir
  by_cases h : ScanRegistry._discover_candidates L roots = []
  · simp [h]
  · simp only [if_neg h]
    cases hs : List.insertionSort ctimeDesc (ScanRegistry._discover_candidates L roots) with
    | nil =>
      exfalso
      have hlen := (List.perm_insertionSort ctimeDesc
        (ScanRegistry._discover_candidates L roots)).length_eq
      rw [hs] at hlen
      exact h (List.length_eq_zero.mp hlen.symm)
    | cons m rest => simp [h]

/-- Claim C1: the resolver returns `None` exactly when no scanned immediate
subdirectory of any existing candidate root (in the fixed search order) has
a name ending with `"_" + L`; a `(ctime, path)` pair is a candidate exactly
when such a matching subdirectory produces it; and when candidates exist
the resolver returns the path of a candidate whose creation timestamp is
maximal across all roots. -/
theorem C1_resolver_correct (L : String) (roots : List RootDir) :
    (ScanRegistry._discover_results_dir L roots = none ↔
      ∀ root ∈ roots, ∀ es, root.entries = some es →
        ∀ e ∈ es, e.isDir = true → pyEndsWith e.name ("_" ++ L) = false) ∧
    (∀ (t : Int) (path : String),
      (t, path) ∈ ScanRegistry._discover_candidates L roots ↔
        ∃ root ∈ roots, ∃ es, root.entries = some es ∧
          ∃ e ∈ es, e.isDir = true ∧ pyEndsWith e.name ("_" ++ L) = true ∧
            t = e.ctime ∧ path = root.path ++ "/" ++ e.name) ∧
    (ScanRegistry._discover_candidates L roots ≠ [] →
      ∃ m ∈ ScanRegistry._discover_candidates L roots,
        ScanRegistry._discover_results_dir L roots = some m.2 ∧
        ∀ c ∈ ScanRegistry._discover_candidates L roots, c.1 ≤ m.1) := by
  refine ⟨?_, mem_discover_candidates L roots, ?_⟩
  · rw [discover_none_iff_candidates_nil]
    exact discover_candidates_eq_nil_iff L roots
  · intro hne
    have hperm := List.perm_insertionSort ctimeDesc
      (ScanRegistry._discover_candidates L roots)
    cases hs : List.insertionSort ctimeDesc (ScanRegistry._discover_candidates L roots) with
    | nil =>
      exfalso
      have hlen := hperm.length_eq
      rw [hs] at hlen
      exact hne (List.length_eq_zero.mp hlen.symm)
    | cons m rest =>
      have hm : m ∈ ScanRegistry._discover_candidates L roots := by
        rw [← hperm.mem_iff, hs]
        exact List.mem_cons_self _ _
      refine ⟨m, hm, ?_, ?_⟩
      · unfold ScanRegistry._discover_results_dir
        rw [if_neg hne, hs]
      · intro c hc
        have hcs : c ∈ m :: rest := by
          rw [← hs, hperm.mem_iff]
          exact hc
        rcases List.mem_cons.mp hcs with rfl | hcr
        · exact le_refl _
        · have hsorted := List.sorted_insertionSort ctimeDesc
            (ScanRegistry._discover_candidates L roots)
          rw [hs] at hsorted
          exact (List.pairwise_cons.mp hsorted).1 c hcr

/-- Witness for C1 at a concrete filesystem: two roots each holding one
matching subdirectory, the second created later. -/
theorem C1_resolver_witness :
    ∃ m ∈ ScanRegistry._discover_candidates "my_scan"
        [⟨"/cwac/results", some [⟨"2026_my_scan", true, 5⟩, ⟨"notes", false, 9⟩]⟩,
         ⟨"/proj/output", some [⟨"x_my_scan", true, 7⟩]⟩],
      ScanRegistry._discover_results_dir "my_scan"
        [⟨"/cwac/results", some [⟨"2026_my_scan", true, 5⟩, ⟨"notes", false, 9⟩]⟩,
         ⟨"/proj/output", some [⟨"x_my_scan", true, 7⟩]⟩] = some m.2 ∧
      ∀ c ∈ ScanRegistry._discover_candidates "my_scan"
        [⟨"/cwac/results", some [⟨"2026_my_scan", true, 5⟩, ⟨"notes", false, 9⟩]⟩,
         ⟨"/proj/output", some [⟨"x_my_scan", true, 7⟩]⟩], c.1 ≤ m.1 :=
  (C1_resolver_correct "my_scan"
    [⟨"/cwac/results", some [⟨"2026_my_scan", true, 5⟩, ⟨"notes", false, 9⟩]⟩,
     ⟨"/proj/output", some [⟨"x_my_scan", true, 7⟩]⟩]).2.2 (by decide)

/-! ## Registry update lemmas -/

theorem update_status_terminal_eq (reg : Registry) (scan_id : String) (env : Env)
    {rec : ScanRecord} (h : dictGet reg scan_id = some rec)
    (ht : terminalStatus rec.status) :
    ScanRegistry.update_status reg scan_id env = reg := by
  unfold ScanRegistry.update_status
  simp only [h]
  rcases ht with ht | ht <;> simp [ht]

theorem update_status_get_ne (reg : Registry) (scan_id id : String) (env : Env)
    (h : id ≠ scan_id) :
    dictGet (ScanRegistry.update_status reg scan_id env) id = dictGet reg id := by
  unfold ScanRegistry.update_status
  cases hg : dictGet reg scan_id with
  | none => rfl
  | some rec =>
    by_cases hterm : rec.status = "complete" ∨ rec.status = "failed"
    · simp [hterm]
    · simp only [if_neg hterm]
      cases rec.process with
      | none => rfl
      | some p =>
        cases env.poll with
        | none => exact dictGet_dictSet_ne _ _ h
        | some rc => exact dictGet_dictSet_ne _ _ h

/-- Claim C4: `update_status` on a job already in a terminal state
(`"complete"` or `"failed"`) leaves the whole registry unchanged: no field
of any record (state, end time, results dir, output lines) is touched. -/
theorem C4_update_status_terminal_noop (reg : Registry) (scan_id : String)
    (env : Env) (rec : ScanRecord)
    (h : ScanRegistry.get reg scan_id = some rec)
    (ht : rec.status = "complete" ∨ rec.status = "failed") :
    ScanRegistry.update_status reg scan_id env = reg :=
  update_status_terminal_eq reg scan_id env h ht

/-- Witness for C4: a concrete completed record survives a further
`update_status` (with pending output and a changed filesystem) unchanged. -/
theorem C4_update_status_terminal_noop_witness :
    ScanRegistry.update_status
      [("a", ⟨some 1, "cfg.json", "/tmp/u", some "/r/x_lab", "complete", 0, some 3, "lab", ["old"], []⟩)]
      "a" ⟨some 0, ["new\n"], ["err"], 9, [⟨"/r", some [⟨"y_lab", true, 11⟩]⟩]⟩ =
    [("a", ⟨some 1, "cfg.json", "/tmp/u", some "/r/x_lab", "complete", 0, some 3, "lab", ["old"], []⟩)] :=
  C4_update_status_terminal_noop _ _ _ _ rfl (Or.inl rfl)

/-- Claim C2: `update_status` on a registered, still-`"running"` job whose
process has exited (poll returns an exit code) sets `end_time` to the
current time, sets the status to `"complete"` exactly when the exit code is
zero and to `"failed"` otherwise, and stores the resolver result for the
`audit_name` of the job (possibly `none`) into `results_dir`. -/
theorem C2_update_status_after_exit (reg : Registry) (scan_id : String)
    (env : Env) (rec : ScanRecord) (p : Nat) (rc : Int)
    (h : ScanRegistry.get reg scan_id = some rec)
    (hrun : rec.status = "running")
    (hp : rec.process = some p)
    (hpoll : env.poll = some rc) :
    ∃ rec', dictGet (ScanRegistry.update_status reg scan_id env) scan_id = some rec' ∧
      rec'.end_time = some env.now ∧
      (rc = 0 → rec'.status = "complete") ∧
      (rc ≠ 0 → rec'.status = "failed") ∧
      rec'.results_dir = ScanRegistry._discover_results_dir rec.audit_name env.roots := by
  have h' : dictGet reg scan_id = some rec := h
  have hcap : ScanRegistry._capture_output rec env =
      { rec with
        stdout_lines := rec.stdout_lines ++ env.stdoutAvail.map pyRstripNl
        stderr_lines := rec.stderr_lines ++ env.stderrAvail.map pyRstripNl } := by
    unfold ScanRegistry._capture_output
    simp only [hp]
  unfold ScanRegistry.update_status
  simp only [h', hrun, hp, hpoll]
  rw [if_neg (by simp)]
  refine ⟨_, dictGet_dictSet_self _ _ _, rfl, ?_, ?_, ?_⟩
  · intro h0
    simp [h0]
  · intro h0
    simp [h0]
  · rw [hcap]

/-- Witness for C2: a concrete running job whose process exited with code
zero; the resolver finds the matching directory in the second root. -/
theorem C2_update_status_after_exit_witness :
    ∃ rec', dictGet (ScanRegistry.update_status
      [("a", ⟨some 1, "cfg.json", "/tmp/u", none, "running", 0, none, "my_scan", [], []⟩)]
      "a"
      ⟨some 0, ["line\n"], [], 42,
        [⟨"/cwac/results", some [⟨"t_my_scan", true, 3⟩]⟩,
         ⟨"/proj/output", none⟩]⟩) "a" = some rec' ∧
      rec'.end_time = some 42 ∧
      ((0 : Int) = 0 → rec'.status = "complete") ∧
      ((0 : Int) ≠ 0 → rec'.status = "failed") ∧
      rec'.results_dir = ScanRegistry._discover_results_dir "my_scan"
        [⟨"/cwac/results", some [⟨"t_my_scan", true, 3⟩]⟩, ⟨"/proj/output", none⟩] :=
  C2_update_status_after_exit
    [("a", ⟨some 1, "cfg.json", "/tmp/u", none, "running", 0, none, "my_scan", [], []⟩)]
    "a"
    ⟨some 0, ["line\n"], [], 42,
      [⟨"/cwac/results", some [⟨"t_my_scan", true, 3⟩]⟩, ⟨"/proj/output", none⟩]⟩
    ⟨some 1, "cfg.json", "/tmp/u", none, "running", 0, none, "my_scan", [], []⟩
    1 0 rfl rfl rfl rfl

/-! ## Monotonicity of terminal states -/

theorem terminal_preserved_update_status (reg : Registry) (id scan_id : String)
    (env : Env) {rec : ScanRecord}
    (h : dictGet reg id = some rec) (ht : terminalStatus rec.status) :
    ∃ rec', dictGet (ScanRegistry.update_status reg scan_id env) id = some rec' ∧
      terminalStatus rec'.status := by
  by_cases hid : id = scan_id
  · subst hid
    rw [update_status_terminal_eq reg id env h ht]
    exact ⟨rec, h, ht⟩
  · rw [update_status_get_ne reg scan_id id env hid]
    exact ⟨rec, h, ht⟩

/-- Claim C5 (amended): along any operation sequence whose `create` and
`register` steps use IDs not already present in the registry (fresh job
IDs, per the spec invariant that IDs are never reused), a record that is
terminal (`"complete"` or `"failed"`) stays terminal under that ID: no
later operation makes the stored record `"running"` again. -/
theorem C5_terminal_state_monotone (r r' : Registry) (id : String)
    (rec : ScanRecord) (hreach : ReachesFresh r r')
    (hget : dictGet r id = some rec) (ht : terminalStatus rec.status) :
    ∃ rec', dictGet r' id = some rec' ∧ terminalStatus rec'.status := by
  induction hreach with
  | refl => exact ⟨rec, hget, ht⟩
  | step op hre hfresh ih =>
    rcases ih with ⟨rec1, hget1, ht1⟩
    cases op with
    | createOp cid pr cp bu an now =>
      have hf : dictGet _ cid = none := hfresh
      have hne : id ≠ cid := by
        intro hh
        rw [hh, hf] at hget1
        exact Option.noConfusion hget1
      refine ⟨rec1, ?_, ht1⟩
      simp only [applyOp, ScanRegistry.create]
      rw [dictGet_dictSet_ne _ _ hne]
      exact hget1
    | registerOp cid rec2 =>
      have hf : dictGet _ cid = none := hfresh
      have hne : id ≠ cid := by
        intro hh
        rw [hh, hf] at hget1
        exact Option.noConfusion hget1
      refine ⟨rec1, ?_, ht1⟩
      simp only [applyOp, ScanRegistry.register]
      rw [dictGet_dictSet_ne _ _ hne]
      exact hget1
    | getOp sid => exact ⟨rec1, hget1, ht1⟩
    | updateStatusOp sid env =>
      exact terminal_preserved_update_status _ id sid env hget1 ht1
    | listAllOp => exact ⟨rec1, hget1, ht1⟩
    | cleanupOp sid => exact ⟨rec1, hget1, ht1⟩

/-- Witness for C5 (amended): one fresh-ID step (a cleanup) after a
registry already holding a completed record. -/
theorem C5_terminal_state_monotone_witness :
    ∃ rec', dictGet (applyOp
      [("a", ⟨some 1, "cfg.json", "/tmp/u", none, "complete", 0, some 3, "lab", [], []⟩)]
      (.cleanupOp "a")) "a" = some rec' ∧ terminalStatus rec'.status :=
  C5_terminal_state_monotone
    [("a", ⟨some 1, "cfg.json", "/tmp/u", none, "complete", 0, some 3, "lab", [], []⟩)]
    _ "a"
    ⟨some 1, "cfg.json", "/tmp/u", none, "complete", 0, some 3, "lab", [], []⟩
    (ReachesFresh.step (.cleanupOp "a") (ReachesFresh.refl _) trivial)
    rfl (Or.inl rfl)

/-- Counterexample for C5 as stated: without the freshness restriction,
`register` with an already-used ID (which the source code never guards
against) overwrites a record that `update_status` had just moved to
`"complete"` with a fresh `"running"` record under the same job ID. -/
theorem C5_counterexample :
    (dictGet (applyOp (applyOp ([] : Registry)
        (.createOp "a" 1 "cfg.json" "/tmp/urls" "myaudit" 0))
        (.updateStatusOp "a" ⟨some 0, [], [], 5, []⟩)) "a").map ScanRecord.status =
      some "complete" ∧
    (dictGet (applyOp (applyOp (applyOp ([] : Registry)
        (.createOp "a" 1 "cfg.json" "/tmp/urls" "myaudit" 0))
        (.updateStatusOp "a" ⟨some 0, [], [], 5, []⟩))
        (.registerOp "a" ⟨some 2, "cfg2.json", "/tmp/u2", none, "running", 6, none, "myaudit", [], []⟩)) "a").map
      ScanRecord.status = some "running" := by
  decide

/-! ## cwac_get_results on a running job -/

/-- Claim C3 (amended): querying results for a job that is still
`"running"` (process present, poll returns nothing) yields the structured
not-ready outcome carrying the state `"running"` — the embedding is a total
function, mirroring the catch-all in the source that keeps exceptions from
crossing the query boundary — and leaves the stored status, end time and
results directory unchanged; the only change is that output lines currently
available from the live process are appended to the line buffers by the
embedded status refresh. -/
theorem C3_get_results_running (reg : Registry) (scan_id : String)
    (audit_type impact : Option String) (limit : Option Int) (env : Env)
    (fsDirs : String → Option Dir) (rec : ScanRecord) (p : Nat)
    (h : dictGet reg scan_id = some rec)
    (hrun : rec.status = "running")
    (hp : rec.process = some p)
    (hpoll : env.poll = none) :
    (cwac_get_results reg scan_id audit_type impact limit env fsDirs).1 =
      GetResultsOut.errNotReady "running" ∧
    ∃ rec', dictGet (cwac_get_results reg scan_id audit_type impact limit env fsDirs).2
        scan_id = some rec' ∧
      rec'.status = rec.status ∧
      rec'.end_time = rec.end_time ∧
      rec'.results_dir = rec.results_dir ∧
      rec'.stdout_lines = rec.stdout_lines ++ env.stdoutAvail.map pyRstripNl ∧
      rec'.stderr_lines = rec.stderr_lines ++ env.stderrAvail.map pyRstripNl := by
  have hcap : ScanRegistry._capture_output rec env =
      { rec with
        stdout_lines := rec.stdout_lines ++ env.stdoutAvail.map pyRstripNl
        stderr_lines := rec.stderr_lines ++ env.stderrAvail.map pyRstripNl } := by
    unfold ScanRegistry._capture_output
    simp only [hp]
  have hupd : ScanRegistry.update_status reg scan_id env =
      dictSet reg scan_id (ScanRegistry._capture_output rec env) := by
    unfold ScanRegistry.update_status
    simp only [h, hrun, hp, hpoll]
    rw [if_neg (by simp)]
  have hmain : cwac_get_results reg scan_id audit_type impact limit env fsDirs =
      (GetResultsOut.errNotReady "running",
        dictSet reg scan_id (ScanRegistry._capture_output rec env)) := by
    unfold cwac_get_results
    simp only [h, hupd, dictGet_dictSet_self, hcap]
    rw [if_pos (by rw [hrun])]
  rw [hmain]
  refine ⟨rfl, _, dictGet_dictSet_self _ _ _, ?_, ?_, ?_, ?_, ?_⟩ <;> rw [hcap]

/-- Witness for C3 (amended): concrete running job with one pending stdout
line; the query returns the not-ready outcome and the refreshed record. -/
theorem C3_get_results_running_witness :
    (cwac_get_results
      [("a", ⟨some 1, "cfg.json", "/tmp/u", none, "running", 0, none, "lab", [], []⟩)]
      "a" none none none ⟨none, ["hello\n"], [], 7, []⟩ (fun _ => none)).1 =
      GetResultsOut.errNotReady "running" ∧
    ∃ rec', dictGet (cwac_get_results
        [("a", ⟨some 1, "cfg.json", "/tmp/u", none, "running", 0, none, "lab", [], []⟩)]
        "a" none none none ⟨none, ["hello\n"], [], 7, []⟩ (fun _ => none)).2 "a" = some rec' ∧
      rec'.status = "running" ∧
      rec'.end_time = none ∧
      rec'.results_dir = none ∧
      rec'.stdout_lines = ([] : List String) ++ (["hello\n"].map pyRstripNl) ∧
      rec'.stderr_lines = ([] : List String) ++ (([] : List String).map pyRstripNl) :=
  C3_get_results_running
    [("a", ⟨some 1, "cfg.json", "/tmp/u", none, "running", 0, none, "lab", [], []⟩)]
    "a" none none none ⟨none, ["hello\n"], [], 7, []⟩ (fun _ => none)
    ⟨some 1, "cfg.json", "/tmp/u", none, "running", 0, none, "lab", [], []⟩
    1 rfl rfl rfl rfl

/-- Counterexample for C3 as stated: the claim that the query does not mutate the job
record (… no appended output lines)" fails, because `cwac_get_results`
calls `update_status`, whose mid-run drain appends any available output:
with one pending stdout line the query returns the not-ready outcome
while the stored `stdout_lines` buffer grows from `[]` to `["hello"]`. -/
theorem C3_counterexample :
    (cwac_get_results
      [("a", ⟨some 1, "cfg.json", "/tmp/u", none, "running", 0, none, "lab", [], []⟩)]
      "a" none none none ⟨none, ["hello\n"], [], 7, []⟩ (fun _ => none)).1 =
      GetResultsOut.errNotReady "running" ∧
    (dictGet (cwac_get_results
        [("a", ⟨some 1, "cfg.json", "/tmp/u", none, "running", 0, none, "lab", [], []⟩)]
        "a" none none none ⟨none, ["hello\n"], [], 7, []⟩ (fun _ => none)).2 "a").map
      ScanRecord.stdout_lines = some ["hello"] := by
  constructor
  · rfl
  · rfl

/-! ## get_summary lemmas -/

theorem pyDropRight_append (t rest : List Char) :
    pyDropRight ⟨t ++ rest⟩ rest.length = ⟨t⟩ := by
  unfold pyDropRight
  have hlen : (t ++ rest).length - rest.length = t.length := by
    rw [List.length_append]; omega
  have : (t ++ rest).take ((t ++ rest).length - rest.length) = t := by
    rw [hlen]; exact List.take_left t rest
  simp only [this]

theorem auditKey_eq_axe_iff (f : String) (hcsv : pyEndsWith f ".csv" = true) :
    auditKey f = "axe_core_audit" ↔ f = "axe_core_audit.csv" := by
  constructor
  · intro hk
    have hsuf : ".csv".data <:+ f.data := by
      rw [← List.isSuffixOf_iff_suffix]
      exact hcsv
    rcases hsuf with ⟨t, ht⟩
    have hstem : pyDropRight f 4 = ⟨t⟩ := by
      have h4 : (".csv".data).length = 4 := rfl
      have : f = ⟨t ++ ".csv".data⟩ := String.ext ht.symm
      rw [this, ← h4, pyDropRight_append]
    unfold auditKey at hk
    by_cases hany : (pyDropRight f 4).data.any (fun c => c ≠ '.')
    · rw [if_pos hany] at hk
      have htaxe : t = "axe_core_audit".data := by
        have := congrArg String.data (hstem.symm.trans hk)
        simpa using this
      apply String.ext
      rw [← ht, htaxe]
      rfl
    · rw [if_neg hany] at hk
      rw [hk] at hcsv
      exact absurd hcsv (by decide)
  · intro hf
    rw [hf]
    decide

theorem summaryStep_total_by (s : Summary) (f : String × List Row) :
    (summaryStep s f).total_issues = s.total_issues + f.2.length ∧
    (summaryStep s f).by_audit_type = dictSet s.by_audit_type (auditKey f.1) f.2.length := by
  unfold summaryStep
  by_cases h : auditKey f.1 = "axe_core_audit" ∧ f.2 ≠ [] <;> simp [h]

theorem summaryStep_axe_untouched (s : Summary) (f : String × List Row)
    (h : ¬ (auditKey f.1 = "axe_core_audit" ∧ f.2 ≠ [])) :
    (summaryStep s f).axe_impact_breakdown = s.axe_impact_breakdown ∧
    (summaryStep s f).top_violations = s.top_violations := by
  unfold summaryStep
  simp [h]

theorem summaryStep_axe_set (s : Summary) (f : String × List Row)
    (h : auditKey f.1 = "axe_core_audit" ∧ f.2 ≠ []) :
    (summaryStep s f).axe_impact_breakdown = some (_count_by_field f.2 "impact") ∧
    (summaryStep s f).top_violations = some (_top_n_by_field f.2 "id" 10) := by
  unfold summaryStep
  simp [h]

theorem foldl_summary_axe_untouched (l : Dir) :
    ∀ s, (∀ f ∈ l, ¬ (auditKey f.1 = "axe_core_audit" ∧ f.2 ≠ [])) →
      (l.foldl summaryStep s).axe_impact_breakdown = s.axe_impact_breakdown ∧
      (l.foldl summaryStep s).top_violations = s.top_violations := by
  induction l with
  | nil => intro s _; exact ⟨rfl, rfl⟩
  | cons f fs ih =>
    intro s hall
    rw [List.foldl_cons]
    have h1 := summaryStep_axe_untouched s f (hall f (List.mem_cons_self _ _))
    have h2 := ih (summaryStep s f) (fun g hg => hall g (List.mem_cons_of_mem _ hg))
    exact ⟨h2.1.trans h1.1, h2.2.trans h1.2⟩

/-- Claim C8 (amended): when the directory holds a non-empty
`axe_core_audit.csv` (and filenames are distinct, as in a real directory),
the summary carries the impact breakdown `_count_by_field rows "impact"`
and the top-10 ranking `_top_n_by_field rows "id" 10` computed over the rows of that file. -/
theorem C8_summary_axe_breakdowns (files : Dir) (rows : List Row)
    (hnodup : (files.map Prod.fst).Nodup)
    (hmem : ("axe_core_audit.csv", rows) ∈ files)
    (hne : rows ≠ []) :
    (get_summary (some files)).axe_impact_breakdown =
      some (_count_by_field rows "impact") ∧
    (get_summary (some files)).top_violations =
      some (_top_n_by_field rows "id" 10) := by
  have hgs : get_summary (some files) =
      (List.insertionSort fileNameLe
        (files.filter (fun f => pyEndsWith f.1 ".csv"))).foldl summaryStep summaryZero := rfl
  have hmemf : ("axe_core_audit.csv", rows) ∈
      files.filter (fun f => pyEndsWith f.1 ".csv") :=
    List.mem_filter.mpr ⟨hmem, by
      show pyEndsWith "axe_core_audit.csv" ".csv" = true
      decide⟩
  have hperm := List.perm_insertionSort fileNameLe
    (files.filter (fun f => pyEndsWith f.1 ".csv"))
  have hmems : ("axe_core_audit.csv", rows) ∈
      List.insertionSort fileNameLe (files.filter (fun f => pyEndsWith f.1 ".csv")) :=
    hperm.mem_iff.mpr hmemf
  have hnods : ((List.insertionSort fileNameLe
      (files.filter (fun f => pyEndsWith f.1 ".csv"))).map Prod.fst).Nodup := by
    have h1 : ((files.filter (fun f => pyEndsWith f.1 ".csv")).map Prod.fst).Sublist
        (files.map Prod.fst) := (List.filter_sublist files).map Prod.fst
    exact ((hperm.map Prod.fst).nodup_iff).mpr (List.Nodup.sublist h1 hnodup)
  obtain ⟨l1, l2, hsplit⟩ := List.append_of_mem hmems
  have hnoqual : ∀ g ∈ l2, ¬ (auditKey g.1 = "axe_core_audit" ∧ g.2 ≠ []) := by
    intro g hg hq
    have hgs2 : g ∈ List.insertionSort fileNameLe
        (files.filter (fun f => pyEndsWith f.1 ".csv")) := by
      rw [hsplit]
      exact List.mem_append_right _ (List.mem_cons_of_mem _ hg)
    have hgf := hperm.mem_iff.mp hgs2
    have hcsv : pyEndsWith g.1 ".csv" = true := (List.mem_filter.mp hgf).2
    have hgname : g.1 = "axe_core_audit.csv" := (auditKey_eq_axe_iff g.1 hcsv).mp hq.1
    rw [hsplit, List.map_append, List.map_cons] at hnods
    have hnd2 := (List.nodup_append.mp hnods).2.1
    have hnotin := (List.nodup_cons.mp hnd2).1
    have hmem2 : ("axe_core_audit.csv" : String) ∈ l2.map Prod.fst := by
      have h0 : g.1 ∈ l2.map Prod.fst := List.mem_map_of_mem Prod.fst hg
      rwa [hgname] at h0
    exact hnotin hmem2
  have hfold : (List.insertionSort fileNameLe
        (files.filter (fun f => pyEndsWith f.1 ".csv"))).foldl summaryStep summaryZero =
      l2.foldl summaryStep
        (summaryStep (l1.foldl summaryStep summaryZero) ("axe_core_audit.csv", rows)) := by
    rw [hsplit, List.foldl_append, List.foldl_cons]
  have hax := summaryStep_axe_set (l1.foldl summaryStep summaryZero)
    ("axe_core_audit.csv", rows)
    ⟨by show auditKey "axe_core_audit.csv" = "axe_core_audit"; decide, hne⟩
  have hfin := foldl_summary_axe_untouched l2
    (summaryStep (l1.foldl summaryStep summaryZero) ("axe_core_audit.csv", rows)) hnoqual
  rw [hgs, hfold]
  exact ⟨hfin.1.trans hax.1, hfin.2.trans hax.2⟩

/-- Witness for C8 (amended): a directory with a one-row axe file and an
auxiliary audit file. -/
theorem C8_summary_axe_breakdowns_witness :
    (get_summary (some [("axe_core_audit.csv", [[("impact", "critical"), ("id", "x")]]),
        ("language_audit.csv", [[("a", "b")]])])).axe_impact_breakdown =
      some (_count_by_field [[("impact", "critical"), ("id", "x")]] "impact") ∧
    (get_summary (some [("axe_core_audit.csv", [[("impact", "critical"), ("id", "x")]]),
        ("language_audit.csv", [[("a", "b")]])])).top_violations =
      some (_top_n_by_field [[("impact", "critical"), ("id", "x")]] "id" 10) :=
  C8_summary_axe_breakdowns
    [("axe_core_audit.csv", [[("impact", "critical"), ("id", "x")]]),
     ("language_audit.csv", [[("a", "b")]])]
    [[("impact", "critical"), ("id", "x")]]
    (by decide) (by decide) (by decide)

/-- Counterexample for C8 as stated: a directory containing
`axe_core_audit.csv` whose parse yields zero rows (a header-only or
unreadable file).  The source requires `rows` to be truthy, so no
breakdown keys are added, while the claim requires them for every
directory that contains the file. -/
theorem C8_counterexample :
    (get_summary (some [("axe_core_audit.csv", ([] : List Row))])).axe_impact_breakdown
        = none ∧
    (get_summary (some [("axe_core_audit.csv", ([] : List Row))])).axe_impact_breakdown
        ≠ some (_count_by_field ([] : List Row) "impact") := by
  decide

/-! ## Total/by-audit-type consistency of get_summary -/

theorem foldl_summary_total_eq_sum (l : Dir) :
    ∀ s : Summary, (dictKeys s.by_audit_type).Nodup →
      s.total_issues = sumCounts s.by_audit_type →
      (∀ f ∈ l, auditKey f.1 ∉ dictKeys s.by_audit_type) →
      (l.map (fun f => auditKey f.1)).Nodup →
      (l.foldl summaryStep s).total_issues =
        sumCounts (l.foldl summaryStep s).by_audit_type := by
  induction l with
  | nil => intro s _ h _ _; exact h
  | cons f fs ih =>
    intro s hnd htot hfresh hlk
    rw [List.foldl_cons]
    have hstep := summaryStep_total_by s f
    have hkey : auditKey f.1 ∉ dictKeys s.by_audit_type :=
      hfresh f (List.mem_cons_self _ _)
    rw [List.map_cons, List.nodup_cons] at hlk
    apply ih
    · rw [hstep.2, dictKeys_dictSet_of_notMem _ _ hkey, List.nodup_append]
      refine ⟨hnd, List.nodup_singleton _, ?_⟩
      intro a ha hsing
      rw [List.mem_singleton.mp hsing] at ha
      exact hkey ha
    · rw [hstep.1, hstep.2, sumCounts_dictSet_of_notMem _ _ hkey, htot]
    · intro g hg
      rw [hstep.2, dictKeys_dictSet_of_notMem _ _ hkey]
      intro hmem
      rcases List.mem_append.mp hmem with hmem | hmem
      · exact hfresh g (List.mem_cons_of_mem _ hg) hmem
      · have heq := List.mem_singleton.mp hmem
        exact hlk.1 (heq ▸ List.mem_map_of_mem (fun f => auditKey f.1) hg)
    · exact hlk.2

/-- Claim C10 (amended): `get_summary` always yields the `total_issues` and
`by_audit_type` fields; when the audit keys derived (via `splitext`) from
the selected CSV filenames are pairwise distinct — true for every ordinary
name, since distinct filenames only collide on an all-dots stem such as
`".csv"` vs `".csv.csv"` — `total_issues` equals the sum of the
`by_audit_type` counts; and the summary is all-zero for a missing directory
or one without CSV files. -/
theorem C10_summary_total_consistent (dir? : Option Dir)
    (hkeys : ∀ files, dir? = some files →
      ((_resolve_csv_files files none).map (fun f => auditKey f.1)).Nodup) :
    (get_summary dir?).total_issues = sumCounts (get_summary dir?).by_audit_type ∧
    (dir? = none → get_summary dir? = summaryZero) ∧
    (∀ files, dir? = some files →
      files.filter (fun f => pyEndsWith f.1 ".csv") = [] →
      get_summary dir? = summaryZero) := by
  refine ⟨?_, ?_, ?_⟩
  · cases dir? with
    | none => rfl
    | some files =>
      have hk := hkeys files rfl
      have hgs : get_summary (some files) =
          (_resolve_csv_files files none).foldl summaryStep summaryZero := rfl
      rw [hgs]
      apply foldl_summary_total_eq_sum
      · exact List.nodup_nil
      · rfl
      · intro f _ hmem
        exact absurd hmem (List.not_mem_nil _)
      · exact hk
  · intro h
    rw [h]
    rfl
  · intro files hf hnil
    rw [hf]
    have : _resolve_csv_files files none = [] := by
      unfold _resolve_csv_files
      rw [hnil]
      rfl
    show (_resolve_csv_files files none).foldl summaryStep summaryZero = summaryZero
    rw [this]
    rfl

/-- Witness for C10 (amended): a directory with two ordinary CSV files and
one non-CSV entry. -/
theorem C10_summary_total_consistent_witness :
    (get_summary (some [("axe_core_audit.csv", [[("impact", "critical")], [("impact", "minor")]]),
        ("language_audit.csv", [[("a", "b")]]), ("readme.txt", [])])).total_issues =
      sumCounts (get_summary (some [("axe_core_audit.csv", [[("impact", "critical")], [("impact", "minor")]]),
        ("language_audit.csv", [[("a", "b")]]), ("readme.txt", [])])).by_audit_type ∧
    ((some [("axe_core_audit.csv", [[("impact", "critical")], [("impact", "minor")]]),
        ("language_audit.csv", [[("a", "b")]]), ("readme.txt", [])] : Option Dir) = none →
      get_summary (some [("axe_core_audit.csv", [[("impact", "critical")], [("impact", "minor")]]),
        ("language_audit.csv", [[("a", "b")]]), ("readme.txt", [])]) = summaryZero) ∧
    (∀ files, (some [("axe_core_audit.csv", [[("impact", "critical")], [("impact", "minor")]]),
        ("language_audit.csv", [[("a", "b")]]), ("readme.txt", [])] : Option Dir) = some files →
      files.filter (fun f => pyEndsWith f.1 ".csv") = [] →
      get_summary (some [("axe_core_audit.csv", [[("impact", "critical")], [("impact", "minor")]]),
        ("language_audit.csv", [[("a", "b")]]), ("readme.txt", [])]) = summaryZero) :=
  C10_summary_total_consistent
    (some [("axe_core_audit.csv", [[("impact", "critical")], [("impact", "minor")]]),
      ("language_audit.csv", [[("a", "b")]]), ("readme.txt", [])])
    (by
      intro files hf
      cases hf
      decide)

/-- Counterexample for C10 as stated: the directory holding a one-row file
named `".csv"` and an empty file named `".csv.csv"`.  the CPython `splitext` function
maps both names to the audit key `".csv"` (an all-dots stem is kept as the
root), so the second assignment overwrites the first's count while
`total_issues` keeps both: the total is 1 but the `by_audit_type` values
sum to 0. -/
theorem C10_counterexample :
    (get_summary (some [(".csv", [[("x", "1")]]), (".csv.csv", ([] : List Row))])).total_issues = 1 ∧
    sumCounts (get_summary (some [(".csv", [[("x", "1")]]),
      (".csv.csv", ([] : List Row))])).by_audit_type = 0 := by
  decide

/-- Witness for C7 at the concrete row set of the spec scenario: the
counts sum to the row count and a row lacking the field reads as the
sentinel value. -/
theorem C7_count_by_field_partition_witness :
    sumCounts (_count_by_field
      [[("impact", "critical")], [("impact", "serious")], [("impact", "critical")]]
      "impact") = 3 ∧
    rowGet ([] : Row) "impact" = "unknown" :=
  ⟨(C7_count_by_field_partition
      [[("impact", "critical")], [("impact", "serious")], [("impact", "critical")]]
      "impact").1,
   (C7_count_by_field_partition
      [[("impact", "critical")], [("impact", "serious")], [("impact", "critical")]]
      "impact").2.2 [] rfl⟩
